import Mathlib

/-!
Verification of the coordinate/label codec and UI state logic of the
Alien-Cave-Hunters YOLO label maker (`yolo_training/tools/label_gui.py`).

The numeric code of the tool is embedded over `ℚ` (the Python source works
on IEEE floats; the spec's guarantees are stated "absent floating-point
rounding", so the exact-arithmetic embedding is the intended model).
Text (file names, label file contents) is embedded as `List Char` so that
every operation is structurally recursive and kernel-computable.
-/

/-- A pixel rectangle `(x1, y1, x2, y2)` as passed to `yolo_save_label`
(`bbox_xyxy` in original image coordinates). -/
structure RectQ where
  x1 : ℚ
  y1 : ℚ
  x2 : ℚ
  y2 : ℚ
deriving DecidableEq

/-- A normalized label record `(cx, cy, w, h)` as written to a label file. -/
structure LabelRec where
  cx : ℚ
  cy : ℚ
  w : ℚ
  h : ℚ
deriving DecidableEq

/-- Clamp of the low coordinate in `yolo_save_label`:
`x1 = max(0, min(x1, W - 1))` (same formula for `y1` with `H`). -/
def clampLo (x W : ℚ) : ℚ := max 0 (min x (W - 1))

/-- Clamp of the high coordinate in `yolo_save_label`:
`x2 = max(1, min(x2, W))` (same formula for `y2` with `H`). -/
def clampHi (x W : ℚ) : ℚ := max 1 (min x W)

/-- The low coordinate after `if x2 < x1: x1, x2 = x2, x1`. -/
def ordMin (a b : ℚ) : ℚ := if b < a then b else a

/-- The high coordinate after `if x2 < x1: x1, x2 = x2, x1`. -/
def ordMax (a b : ℚ) : ℚ := if b < a then a else b

/-- The arithmetic core of `yolo_save_label` (label_gui.py lines 61-85):
clamp each coordinate to the image bounds, fix the ordering, derive the
center-size form and divide by the image dimensions. -/
def normalizeRect (r : RectQ) (W H : ℚ) : LabelRec :=
  let x1 := clampLo r.x1 W
  let x2 := clampHi r.x2 W
  let y1 := clampLo r.y1 H
  let y2 := clampHi r.y2 H
  let lx := ordMin x1 x2
  let hx := ordMax x1 x2
  let ly := ordMin y1 y2
  let hy := ordMax y1 y2
  let w := hx - lx
  let h := hy - ly
  let cx := lx + w / 2
  let cy := ly + h / 2
  { cx := cx / W, cy := cy / H, w := w / W, h := h / H }

/-- The denormalization performed in `LabelGUI.load_image`
(label_gui.py lines 262-265): convert a normalized record back to an
`xyxy` rectangle in original image coordinates. -/
def denormalizeRect (rec : LabelRec) (W H : ℚ) : RectQ :=
  { x1 := (rec.cx - rec.w / 2) * W
    y1 := (rec.cy - rec.h / 2) * H
    x2 := (rec.cx + rec.w / 2) * W
    y2 := (rec.cy + rec.h / 2) * H }

theorem ordMin_eq (a b : ℚ) : ordMin a b = min a b := by
  unfold ordMin
  rcases le_or_lt a b with h | h
  · rw [if_neg (not_lt.mpr h), min_eq_left h]
  · rw [if_pos h, min_eq_right h.le]

theorem ordMax_eq (a b : ℚ) : ordMax a b = max a b := by
  unfold ordMax
  rcases le_or_lt a b with h | h
  · rw [if_neg (not_lt.mpr h), max_eq_right h]
  · rw [if_pos h, max_eq_left h.le]

theorem clampLo_nonneg (x W : ℚ) : 0 ≤ clampLo x W := le_max_left 0 _

theorem clampLo_le (x W : ℚ) (hW : 1 ≤ W) : clampLo x W ≤ W - 1 :=
  max_le (by linarith) (min_le_right _ _)

theorem clampHi_ge (x W : ℚ) : 1 ≤ clampHi x W := le_max_left 1 _

theorem clampHi_le (x W : ℚ) (hW : 1 ≤ W) : clampHi x W ≤ W :=
  max_le hW (min_le_right _ _)

theorem clampLo_fixed (x W : ℚ) (h0 : 0 ≤ x) (h1 : x ≤ W - 1) : clampLo x W = x := by
  unfold clampLo
  rw [min_eq_left h1, max_eq_right h0]

theorem clampHi_fixed (x W : ℚ) (h0 : 1 ≤ x) (h1 : x ≤ W) : clampHi x W = x := by
  unfold clampHi
  rw [min_eq_left h1, max_eq_right h0]

/-- The composite `denormalize ∘ normalize` produces exactly the clamped,
reordered rectangle: the divisions by `W, H` cancel over `ℚ`. -/
theorem denormalizeRect_normalizeRect (r : RectQ) (W H : ℚ)
    (hW : 1 ≤ W) (hH : 1 ≤ H) :
    denormalizeRect (normalizeRect r W H) W H =
      { x1 := min (clampLo r.x1 W) (clampHi r.x2 W)
        y1 := min (clampLo r.y1 H) (clampHi r.y2 H)
        x2 := max (clampLo r.x1 W) (clampHi r.x2 W)
        y2 := max (clampLo r.y1 H) (clampHi r.y2 H) } := by
  have hW0 : W ≠ 0 := by intro h; rw [h] at hW; norm_num at hW
  have hH0 : H ≠ 0 := by intro h; rw [h] at hH; norm_num at hH
  simp only [normalizeRect, denormalizeRect, ordMin_eq, ordMax_eq, RectQ.mk.injEq]
  refine ⟨?_, ?_, ?_, ?_⟩ <;> field_simp <;> ring

/-- Normalizing the clamped, reordered rectangle gives the same record as
normalizing the original rectangle: the clamps fix their own output. -/
theorem normalizeRect_idem (r : RectQ) (W H : ℚ) (hW : 1 ≤ W) (hH : 1 ≤ H) :
    normalizeRect (denormalizeRect (normalizeRect r W H) W H) W H =
      normalizeRect r W H := by
  rw [denormalizeRect_normalizeRect r W H hW hH]
  have hx1 : clampLo (min (clampLo r.x1 W) (clampHi r.x2 W)) W
      = min (clampLo r.x1 W) (clampHi r.x2 W) :=
    clampLo_fixed _ _ (le_min (clampLo_nonneg _ _) (le_trans zero_le_one (clampHi_ge _ _)))
      (le_trans (min_le_left _ _) (clampLo_le _ _ hW))
  have hx2 : clampHi (max (clampLo r.x1 W) (clampHi r.x2 W)) W
      = max (clampLo r.x1 W) (clampHi r.x2 W) :=
    clampHi_fixed _ _ (le_trans (clampHi_ge _ _) (le_max_right _ _))
      (max_le (le_trans (clampLo_le _ _ hW) (by linarith)) (clampHi_le _ _ hW))
  have hy1 : clampLo (min (clampLo r.y1 H) (clampHi r.y2 H)) H
      = min (clampLo r.y1 H) (clampHi r.y2 H) :=
    clampLo_fixed _ _ (le_min (clampLo_nonneg _ _) (le_trans zero_le_one (clampHi_ge _ _)))
      (le_trans (min_le_left _ _) (clampLo_le _ _ hH))
  have hy2 : clampHi (max (clampLo r.y1 H) (clampHi r.y2 H)) H
      = max (clampLo r.y1 H) (clampHi r.y2 H) :=
    clampHi_fixed _ _ (le_trans (clampHi_ge _ _) (le_max_right _ _))
      (max_le (le_trans (clampLo_le _ _ hH) (by linarith)) (clampHi_le _ _ hH))
  simp only [normalizeRect, ordMin_eq, ordMax_eq, hx1, hx2, hy1, hy2]
  rw [min_eq_left min_le_max, max_eq_right min_le_max,
      min_eq_left min_le_max, max_eq_right min_le_max]

/-- For a rectangle fully inside the image with positive extent, the clamps
reduce to one-sided forms and the order-fix does not fire. -/
theorem denorm_norm_inbounds (r : RectQ) (W H : ℚ) (hW : 1 ≤ W) (hH : 1 ≤ H)
    (hx0 : 0 ≤ r.x1) (hxo : r.x1 < r.x2) (hxW : r.x2 ≤ W)
    (hy0 : 0 ≤ r.y1) (hyo : r.y1 < r.y2) (hyH : r.y2 ≤ H) :
    denormalizeRect (normalizeRect r W H) W H =
      { x1 := min r.x1 (W - 1)
        y1 := min r.y1 (H - 1)
        x2 := max 1 r.x2
        y2 := max 1 r.y2 } := by
  rw [denormalizeRect_normalizeRect r W H hW hH]
  have hclx : clampLo r.x1 W = min r.x1 (W - 1) := by
    unfold clampLo
    rw [max_eq_right (le_min hx0 (by linarith))]
  have hchx : clampHi r.x2 W = max 1 r.x2 := by
    unfold clampHi
    rw [min_eq_left hxW]
  have hcly : clampLo r.y1 H = min r.y1 (H - 1) := by
    unfold clampLo
    rw [max_eq_right (le_min hy0 (by linarith))]
  have hchy : clampHi r.y2 H = max 1 r.y2 := by
    unfold clampHi
    rw [min_eq_left hyH]
  have hordx : min r.x1 (W - 1) ≤ max 1 r.x2 :=
    le_trans (min_le_left _ _) (le_trans hxo.le (le_max_right _ _))
  have hordy : min r.y1 (H - 1) ≤ max 1 r.y2 :=
    le_trans (min_le_left _ _) (le_trans hyo.le (le_max_right _ _))
  rw [hclx, hchx, hcly, hchy, min_eq_left hordx, max_eq_right hordx,
      min_eq_left hordy, max_eq_right hordy]

/-- C1: for every pixel rectangle fully inside `[0,W]×[0,H]` with positive
width and height, `denormalize (normalize rect)` reproduces each coordinate
of `rect` within 1 pixel; and, over exact arithmetic, `denormalize` exactly
inverts `normalize` on records produced by `normalize` on such input:
normalizing the denormalized rectangle returns the identical record. -/
theorem normalize_denormalize_roundtrip (r : RectQ) (W H : ℚ)
    (hW : 1 ≤ W) (hH : 1 ≤ H)
    (hx0 : 0 ≤ r.x1) (hxo : r.x1 < r.x2) (hxW : r.x2 ≤ W)
    (hy0 : 0 ≤ r.y1) (hyo : r.y1 < r.y2) (hyH : r.y2 ≤ H) :
    (|(denormalizeRect (normalizeRect r W H) W H).x1 - r.x1| ≤ 1 ∧
     |(denormalizeRect (normalizeRect r W H) W H).y1 - r.y1| ≤ 1 ∧
     |(denormalizeRect (normalizeRect r W H) W H).x2 - r.x2| ≤ 1 ∧
     |(denormalizeRect (normalizeRect r W H) W H).y2 - r.y2| ≤ 1) ∧
    normalizeRect (denormalizeRect (normalizeRect r W H) W H) W H =
      normalizeRect r W H := by
  refine ⟨?_, normalizeRect_idem r W H hW hH⟩
  rw [denorm_norm_inbounds r W H hW hH hx0 hxo hxW hy0 hyo hyH]
  dsimp only
  refine ⟨?_, ?_, ?_, ?_⟩
  · rcases le_total r.x1 (W - 1) with h | h
    · rw [min_eq_left h]; simp
    · rw [min_eq_right h, abs_le]; constructor <;> linarith
  · rcases le_total r.y1 (H - 1) with h | h
    · rw [min_eq_left h]; simp
    · rw [min_eq_right h, abs_le]; constructor <;> linarith
  · rcases le_total 1 r.x2 with h | h
    · rw [max_eq_right h]; simp
    · rw [max_eq_left h, abs_le]; constructor <;> linarith
  · rcases le_total 1 r.y2 with h | h
    · rw [max_eq_right h]; simp
    · rw [max_eq_left h, abs_le]; constructor <;> linarith

/-- Witness for C1 at the spec's end-to-end example: a 1000×500 image with
a drag from (100,100) to (300,400). -/
theorem normalize_denormalize_roundtrip_witness :
    (1 : ℚ) ≤ 1000 ∧ (1 : ℚ) ≤ 500 ∧
    (0 : ℚ) ≤ 100 ∧ (100 : ℚ) < 300 ∧ (300 : ℚ) ≤ 1000 ∧
    (0 : ℚ) ≤ 100 ∧ (100 : ℚ) < 400 ∧ (400 : ℚ) ≤ 500 ∧
    ((|(denormalizeRect (normalizeRect ⟨100, 100, 300, 400⟩ 1000 500) 1000 500).x1 - 100| ≤ 1 ∧
      |(denormalizeRect (normalizeRect ⟨100, 100, 300, 400⟩ 1000 500) 1000 500).y1 - 100| ≤ 1 ∧
      |(denormalizeRect (normalizeRect ⟨100, 100, 300, 400⟩ 1000 500) 1000 500).x2 - 300| ≤ 1 ∧
      |(denormalizeRect (normalizeRect ⟨100, 100, 300, 400⟩ 1000 500) 1000 500).y2 - 400| ≤ 1) ∧
     normalizeRect (denormalizeRect (normalizeRect ⟨100, 100, 300, 400⟩ 1000 500) 1000 500) 1000 500 =
       normalizeRect ⟨100, 100, 300, 400⟩ 1000 500) :=
  ⟨by norm_num, by norm_num, by norm_num, by norm_num, by norm_num, by norm_num,
   by norm_num, by norm_num,
   normalize_denormalize_roundtrip ⟨100, 100, 300, 400⟩ 1000 500
     (by norm_num) (by norm_num) (by norm_num) (by norm_num) (by norm_num)
     (by norm_num) (by norm_num) (by norm_num)⟩

theorem normalizeRect_w_eq (r : RectQ) (W H : ℚ) :
    (normalizeRect r W H).w =
      (max (clampLo r.x1 W) (clampHi r.x2 W) -
        min (clampLo r.x1 W) (clampHi r.x2 W)) / W := by
  simp only [normalizeRect, ordMin_eq, ordMax_eq]

theorem normalizeRect_h_eq (r : RectQ) (W H : ℚ) :
    (normalizeRect r W H).h =
      (max (clampLo r.y1 H) (clampHi r.y2 H) -
        min (clampLo r.y1 H) (clampHi r.y2 H)) / H := by
  simp only [normalizeRect, ordMin_eq, ordMax_eq]

theorem normalizeRect_cx_eq (r : RectQ) (W H : ℚ) :
    (normalizeRect r W H).cx =
      (min (clampLo r.x1 W) (clampHi r.x2 W) +
        (max (clampLo r.x1 W) (clampHi r.x2 W) -
          min (clampLo r.x1 W) (clampHi r.x2 W)) / 2) / W := by
  simp only [normalizeRect, ordMin_eq, ordMax_eq]

theorem normalizeRect_cy_eq (r : RectQ) (W H : ℚ) :
    (normalizeRect r W H).cy =
      (min (clampLo r.y1 H) (clampHi r.y2 H) +
        (max (clampLo r.y1 H) (clampHi r.y2 H) -
          min (clampLo r.y1 H) (clampHi r.y2 H)) / 2) / H := by
  simp only [normalizeRect, ordMin_eq, ordMax_eq]

/-- C2 counterexample: the code clamps before the order-fix swap, and the
two clamps treat the first and second coordinate differently, so swapping
the x-coordinates of a rectangle touching the image edges changes the
output record. With `W = H = 10`, the rectangle `(0,2,10,8)` normalizes to
width 1 while its x-swapped form `(10,2,0,8)` normalizes to width 4/5. -/
theorem normalize_swap_counterexample :
    normalizeRect ⟨0, 2, 10, 8⟩ 10 10 ≠ normalizeRect ⟨10, 2, 0, 8⟩ 10 10 := by
  intro heq
  have h1 : (normalizeRect ⟨0, 2, 10, 8⟩ 10 10).w = 1 := by
    norm_num [normalizeRect, clampLo, clampHi, ordMin, ordMax]
  have h2 : (normalizeRect ⟨10, 2, 0, 8⟩ 10 10).w = 4 / 5 := by
    norm_num [normalizeRect, clampLo, clampHi, ordMin, ordMax]
  rw [heq, h2] at h1
  norm_num at h1

/-- C2 (amended): `normalize` on `(x1,y1,x2,y2)` and on the x-swapped
`(x2,y1,x1,y2)` yields an identical record whenever both x-coordinates lie
in `[1, W-1]`, where the two (asymmetric) clamps are the identity; outside
that range the clamp applied before the order-fix can differ between the
two drag directions. -/
theorem normalize_swap_invariant (x1 y1 x2 y2 W H : ℚ)
    (h1 : 1 ≤ x1) (h1' : x1 ≤ W - 1) (h2 : 1 ≤ x2) (h2' : x2 ≤ W - 1) :
    normalizeRect ⟨x1, y1, x2, y2⟩ W H = normalizeRect ⟨x2, y1, x1, y2⟩ W H := by
  have e1 : clampLo x1 W = x1 := clampLo_fixed _ _ (by linarith) h1'
  have e2 : clampHi x1 W = x1 := clampHi_fixed _ _ h1 (by linarith)
  have e3 : clampLo x2 W = x2 := clampLo_fixed _ _ (by linarith) h2'
  have e4 : clampHi x2 W = x2 := clampHi_fixed _ _ h2 (by linarith)
  simp only [normalizeRect, ordMin_eq, ordMax_eq]
  rw [e1, e2, e3, e4, min_comm x1 x2, max_comm x1 x2]

/-- Witness for C2 (amended): forward drag `(3,2)-(7,8)` and reverse drag
`(7,2)-(3,8)` on a 10×10 image produce the same record. -/
theorem normalize_swap_invariant_witness :
    (1 : ℚ) ≤ 3 ∧ (3 : ℚ) ≤ 10 - 1 ∧ (1 : ℚ) ≤ 7 ∧ (7 : ℚ) ≤ 10 - 1 ∧
    normalizeRect ⟨3, 2, 7, 8⟩ 10 10 = normalizeRect ⟨7, 2, 3, 8⟩ 10 10 :=
  ⟨by norm_num, by norm_num, by norm_num, by norm_num,
   normalize_swap_invariant 3 2 7 8 10 10
     (by norm_num) (by norm_num) (by norm_num) (by norm_num)⟩

/-- C3 counterexample: the clamps do not make an interior degenerate
rectangle non-degenerate. With `W = H = 10`, the zero-width input
`(5,2,5,8)` normalizes to `w = 0`, below the claimed minimum `1/W`. -/
theorem degenerate_counterexample :
    (normalizeRect ⟨5, 2, 5, 8⟩ 10 10).w < 1 / 10 := by
  norm_num [normalizeRect, clampLo, clampHi, ordMin, ordMax]

/-- C3 (amended): the normalized width (resp. height) is never negative,
and a zero-width (resp. zero-height) input rectangle yields the minimum of
one pixel-equivalent, `w ≥ 1/W` (resp. `h ≥ 1/H`), when its degenerate
coordinate lies at or beyond an image edge (at most 0 or at least `W`,
where the clamps actually separate the two coordinates); a degenerate
rectangle in the image interior can normalize to width (height) zero. -/
theorem degenerate_min_size (v u x1 y1 x2 y2 W H : ℚ) (hW : 1 ≤ W) (hH : 1 ≤ H) :
    (0 ≤ (normalizeRect ⟨v, y1, v, y2⟩ W H).w ∧
      ((v ≤ 0 ∨ W ≤ v) → 1 / W ≤ (normalizeRect ⟨v, y1, v, y2⟩ W H).w)) ∧
    (0 ≤ (normalizeRect ⟨x1, u, x2, u⟩ W H).h ∧
      ((u ≤ 0 ∨ H ≤ u) → 1 / H ≤ (normalizeRect ⟨x1, u, x2, u⟩ W H).h)) := by
  have h0W : (0 : ℚ) < W := lt_of_lt_of_le zero_lt_one hW
  have h0H : (0 : ℚ) < H := lt_of_lt_of_le zero_lt_one hH
  refine ⟨⟨?_, ?_⟩, ⟨?_, ?_⟩⟩
  · rw [normalizeRect_w_eq]
    exact div_nonneg (by linarith [min_le_max (a := clampLo v W) (b := clampHi v W)]) h0W.le
  · intro hv
    rw [normalizeRect_w_eq]
    rcases hv with hv | hv
    · have e1 : clampLo v W = 0 := by
        unfold clampLo
        exact max_eq_left (le_trans (min_le_left _ _) hv)
      have e2 : clampHi v W = 1 := by
        unfold clampHi
        exact max_eq_left (le_trans (min_le_left _ _) (by linarith))
      rw [e1, e2, min_eq_left (by norm_num : (0:ℚ) ≤ 1),
        max_eq_right (by norm_num : (0:ℚ) ≤ 1)]
      norm_num
    · have e1 : clampLo v W = W - 1 := by
        unfold clampLo
        rw [min_eq_right (by linarith), max_eq_right (by linarith)]
      have e2 : clampHi v W = W := by
        unfold clampHi
        rw [min_eq_right hv, max_eq_right (by linarith)]
      rw [e1, e2, min_eq_left (by linarith), max_eq_right (by linarith)]
      rw [show W - (W - 1) = 1 by ring]
  · rw [normalizeRect_h_eq]
    exact div_nonneg (by linarith [min_le_max (a := clampLo u H) (b := clampHi u H)]) h0H.le
  · intro hu
    rw [normalizeRect_h_eq]
    rcases hu with hu | hu
    · have e1 : clampLo u H = 0 := by
        unfold clampLo
        exact max_eq_left (le_trans (min_le_left _ _) hu)
      have e2 : clampHi u H = 1 := by
        unfold clampHi
        exact max_eq_left (le_trans (min_le_left _ _) (by linarith))
      rw [e1, e2, min_eq_left (by norm_num : (0:ℚ) ≤ 1),
        max_eq_right (by norm_num : (0:ℚ) ≤ 1)]
      norm_num
    · have e1 : clampLo u H = H - 1 := by
        unfold clampLo
        rw [min_eq_right (by linarith), max_eq_right (by linarith)]
      have e2 : clampHi u H = H := by
        unfold clampHi
        rw [min_eq_right hu, max_eq_right (by linarith)]
      rw [e1, e2, min_eq_left (by linarith), max_eq_right (by linarith)]
      rw [show H - (H - 1) = 1 by ring]

/-- Witness for C3 (amended) at `W = H = 10`, a zero-width rectangle at
the left edge (`x1 = x2 = 0`) and a zero-height rectangle past the bottom
edge (`y1 = y2 = 12`). -/
theorem degenerate_min_size_witness :
    (1 : ℚ) ≤ 10 ∧ (1 : ℚ) ≤ 10 ∧
    ((0 ≤ (normalizeRect ⟨0, 2, 0, 8⟩ 10 10).w ∧
       (((0 : ℚ) ≤ 0 ∨ (10 : ℚ) ≤ 0) → 1 / 10 ≤ (normalizeRect ⟨0, 2, 0, 8⟩ 10 10).w)) ∧
     (0 ≤ (normalizeRect ⟨2, 12, 8, 12⟩ 10 10).h ∧
       (((12 : ℚ) ≤ 0 ∨ (10 : ℚ) ≤ 12) → 1 / 10 ≤ (normalizeRect ⟨2, 12, 8, 12⟩ 10 10).h))) :=
  ⟨by norm_num, by norm_num,
   degenerate_min_size 0 12 2 2 8 8 10 10 (by norm_num) (by norm_num)⟩

theorem clamp_min_nonneg (x y W : ℚ) : 0 ≤ min (clampLo x W) (clampHi y W) :=
  le_min (clampLo_nonneg _ _) (le_trans zero_le_one (clampHi_ge _ _))

theorem clamp_max_le (x y W : ℚ) (hW : 1 ≤ W) : max (clampLo x W) (clampHi y W) ≤ W :=
  max_le (le_trans (clampLo_le _ _ hW) (by linarith)) (clampHi_le _ _ hW)

/-- C4: for every input rectangle, in-bounds or not, the clamping performed
at save time puts every field of the normalized record in `[0,1]`, and the
denormalized form of that record lies within `[0,W]×[0,H]`. -/
theorem normalize_output_unit_range (r : RectQ) (W H : ℚ) (hW : 1 ≤ W) (hH : 1 ≤ H) :
    (0 ≤ (normalizeRect r W H).cx ∧ (normalizeRect r W H).cx ≤ 1 ∧
     0 ≤ (normalizeRect r W H).cy ∧ (normalizeRect r W H).cy ≤ 1 ∧
     0 ≤ (normalizeRect r W H).w ∧ (normalizeRect r W H).w ≤ 1 ∧
     0 ≤ (normalizeRect r W H).h ∧ (normalizeRect r W H).h ≤ 1) ∧
    (0 ≤ (denormalizeRect (normalizeRect r W H) W H).x1 ∧
     (denormalizeRect (normalizeRect r W H) W H).x1 ≤ W ∧
     0 ≤ (denormalizeRect (normalizeRect r W H) W H).x2 ∧
     (denormalizeRect (normalizeRect r W H) W H).x2 ≤ W ∧
     0 ≤ (denormalizeRect (normalizeRect r W H) W H).y1 ∧
     (denormalizeRect (normalizeRect r W H) W H).y1 ≤ H ∧
     0 ≤ (denormalizeRect (normalizeRect r W H) W H).y2 ∧
     (denormalizeRect (normalizeRect r W H) W H).y2 ≤ H) := by
  have h0W : (0 : ℚ) < W := lt_of_lt_of_le zero_lt_one hW
  have h0H : (0 : ℚ) < H := lt_of_lt_of_le zero_lt_one hH
  have hax : 0 ≤ min (clampLo r.x1 W) (clampHi r.x2 W) := clamp_min_nonneg _ _ _
  have hbx : max (clampLo r.x1 W) (clampHi r.x2 W) ≤ W := clamp_max_le _ _ _ hW
  have hmx : min (clampLo r.x1 W) (clampHi r.x2 W) ≤
      max (clampLo r.x1 W) (clampHi r.x2 W) := min_le_max
  have hay : 0 ≤ min (clampLo r.y1 H) (clampHi r.y2 H) := clamp_min_nonneg _ _ _
  have hby : max (clampLo r.y1 H) (clampHi r.y2 H) ≤ H := clamp_max_le _ _ _ hH
  have hmy : min (clampLo r.y1 H) (clampHi r.y2 H) ≤
      max (clampLo r.y1 H) (clampHi r.y2 H) := min_le_max
  constructor
  · rw [normalizeRect_cx_eq, normalizeRect_cy_eq, normalizeRect_w_eq, normalizeRect_h_eq]
    refine ⟨div_nonneg (by linarith) h0W.le, (div_le_one h0W).mpr (by linarith),
      div_nonneg (by linarith) h0H.le, (div_le_one h0H).mpr (by linarith),
      div_nonneg (by linarith) h0W.le, (div_le_one h0W).mpr (by linarith),
      div_nonneg (by linarith) h0H.le, (div_le_one h0H).mpr (by linarith)⟩
  · rw [denormalizeRect_normalizeRect r W H hW hH]
    exact ⟨hax, by linarith, by linarith, hbx, hay, by linarith, by linarith, hby⟩

/-- Witness for C4 at a rectangle extending past every edge of a 10×10
image. -/
theorem normalize_output_unit_range_witness :
    (1 : ℚ) ≤ 10 ∧ (1 : ℚ) ≤ 10 ∧
    ((0 ≤ (normalizeRect ⟨-3, -4, 15, 17⟩ 10 10).cx ∧
      (normalizeRect ⟨-3, -4, 15, 17⟩ 10 10).cx ≤ 1 ∧
      0 ≤ (normalizeRect ⟨-3, -4, 15, 17⟩ 10 10).cy ∧
      (normalizeRect ⟨-3, -4, 15, 17⟩ 10 10).cy ≤ 1 ∧
      0 ≤ (normalizeRect ⟨-3, -4, 15, 17⟩ 10 10).w ∧
      (normalizeRect ⟨-3, -4, 15, 17⟩ 10 10).w ≤ 1 ∧
      0 ≤ (normalizeRect ⟨-3, -4, 15, 17⟩ 10 10).h ∧
      (normalizeRect ⟨-3, -4, 15, 17⟩ 10 10).h ≤ 1) ∧
     (0 ≤ (denormalizeRect (normalizeRect ⟨-3, -4, 15, 17⟩ 10 10) 10 10).x1 ∧
      (denormalizeRect (normalizeRect ⟨-3, -4, 15, 17⟩ 10 10) 10 10).x1 ≤ 10 ∧
      0 ≤ (denormalizeRect (normalizeRect ⟨-3, -4, 15, 17⟩ 10 10) 10 10).x2 ∧
      (denormalizeRect (normalizeRect ⟨-3, -4, 15, 17⟩ 10 10) 10 10).x2 ≤ 10 ∧
      0 ≤ (denormalizeRect (normalizeRect ⟨-3, -4, 15, 17⟩ 10 10) 10 10).y1 ∧
      (denormalizeRect (normalizeRect ⟨-3, -4, 15, 17⟩ 10 10) 10 10).y1 ≤ 10 ∧
      0 ≤ (denormalizeRect (normalizeRect ⟨-3, -4, 15, 17⟩ 10 10) 10 10).y2 ∧
      (denormalizeRect (normalizeRect ⟨-3, -4, 15, 17⟩ 10 10) 10 10).y2 ≤ 10)) :=
  ⟨by norm_num, by norm_num,
   normalize_output_unit_range ⟨-3, -4, 15, 17⟩ 10 10 (by norm_num) (by norm_num)⟩

/-- Python `int()` applied to a float: truncation toward zero, as used in
`LabelGUI.load_image` when mapping image coordinates to canvas pixels. -/
def pyTrunc (q : ℚ) : ℤ := if q < 0 then -⌊-q⌋ else ⌊q⌋

/-- Canvas mapping of `LabelGUI.load_image` (label_gui.py lines 267-270):
`c = offset + int(p * scale)`, applied independently to each coordinate. -/
def toDisplay (p s : ℚ) (off : ℤ) : ℤ := off + pyTrunc (p * s)

/-- Inverse mapping of `LabelGUI.save_label` (label_gui.py lines 343-346):
`p = (c - offset) / scale`. -/
def toOriginal (c s : ℚ) (off : ℤ) : ℚ := (c - off) / s

/-- C5 counterexample: with `scale = 1/10` (a 12800-pixel-wide image shown
on a 1280-pixel canvas) and zero offset, the original coordinate 9 maps to
display pixel 0 and back to 0, an error of 9 original pixels — the round
trip is not within one pixel. -/
theorem display_roundtrip_counterexample :
    ¬ |toOriginal ((toDisplay 9 (1 / 10) 0 : ℤ) : ℚ) (1 / 10) 0 - 9| ≤ 1 := by
  have h : toDisplay 9 (1 / 10) 0 = 0 := by
    unfold toDisplay pyTrunc
    rw [if_neg (by norm_num)]
    norm_num [Int.floor_eq_iff]
  rw [h]
  unfold toOriginal
  norm_num

/-- C5 (amended): for `scale ∈ (0,1]`, any integer offset and a
non-negative coordinate (canvas coordinates are non-negative), the display
round trip recovers the original coordinate within `1/scale` original
pixels — one *display* pixel re-scaled — not within one original pixel;
within one pixel holds only in the special case `scale = 1`. -/
theorem display_roundtrip_within_inverse_scale (p s : ℚ) (off : ℤ)
    (hs0 : 0 < s) (hs1 : s ≤ 1) (hp : 0 ≤ p) :
    |toOriginal ((toDisplay p s off : ℤ) : ℚ) s off - p| < 1 / s := by
  have hps : 0 ≤ p * s := mul_nonneg hp hs0.le
  have htr : pyTrunc (p * s) = ⌊p * s⌋ := by
    unfold pyTrunc
    rw [if_neg (not_lt.mpr hps)]
  have h1 : ((⌊p * s⌋ : ℚ)) ≤ p * s := Int.floor_le _
  have h2 : p * s < ⌊p * s⌋ + 1 := Int.lt_floor_add_one _
  unfold toOriginal toDisplay
  rw [htr]
  push_cast
  rw [show (off : ℚ) + (⌊p * s⌋ : ℚ) - off = (⌊p * s⌋ : ℚ) by ring]
  rw [abs_sub_comm, abs_of_nonneg (sub_nonneg.mpr ((div_le_iff hs0).mpr h1))]
  rw [lt_div_iff hs0, sub_mul, div_mul_cancel₀ _ hs0.ne']
  linarith

/-- Witness for C5 (amended) at `p = 9`, `scale = 1/2`, `offset = 3`. -/
theorem display_roundtrip_witness :
    (0 : ℚ) < 1 / 2 ∧ (1 : ℚ) / 2 ≤ 1 ∧ (0 : ℚ) ≤ 9 ∧
    |toOriginal ((toDisplay 9 (1 / 2) 3 : ℤ) : ℚ) (1 / 2) 3 - 9| < 1 / (1 / 2) :=
  ⟨by norm_num, by norm_num, by norm_num,
   display_roundtrip_within_inverse_scale 9 (1 / 2) 3
     (by norm_num) (by norm_num) (by norm_num)⟩

/-- The characters of a string literal; label-file text is modelled as
`List Char`. -/
def chars (s : String) : List Char := s.data

/-- Model of `f.readline()` stripped of its line terminator: the
characters before the first newline. -/
def firstLine : List Char → List Char
  | [] => []
  | c :: cs => if c = '\n' then [] else c :: firstLine cs

/-- Model of Python `str.strip()`: remove leading and trailing
whitespace. -/
def pyStrip (s : List Char) : List Char :=
  ((s.dropWhile Char.isWhitespace).reverse.dropWhile Char.isWhitespace).reverse

def tokensAux : List Char → List Char → List (List Char)
  | [], acc => if acc = [] then [] else [acc.reverse]
  | c :: cs, acc =>
    if c.isWhitespace then
      (if acc = [] then tokensAux cs [] else acc.reverse :: tokensAux cs [])
    else tokensAux cs (c :: acc)

/-- Model of Python `str.split()` with no separator argument: maximal runs
of non-whitespace characters; empty tokens are dropped. -/
def tokens (s : List Char) : List (List Char) := tokensAux s []

/-- Value of a run of decimal digit characters (empty run counts 0);
`none` as soon as a non-digit appears. -/
def digitsVal0 : List Char → Option ℕ
  | [] => some 0
  | c :: cs =>
    if c.isDigit then
      (digitsVal0 cs).map (fun n => (c.toNat - 48) * 10 ^ cs.length + n)
    else none

/-- Value of a non-empty all-digit run; `none` otherwise. -/
def digitsVal (cs : List Char) : Option ℕ :=
  if cs.isEmpty then none else digitsVal0 cs

/-- Model of Python `int(token)`: an optional sign followed by at least
one decimal digit. -/
def parseIntTok (cs : List Char) : Option ℤ :=
  if cs.head? = some '-' then (digitsVal cs.tail).map (fun n => -(n : ℤ))
  else if cs.head? = some '+' then (digitsVal cs.tail).map (fun n => (n : ℤ))
  else (digitsVal cs).map (fun n => (n : ℤ))

/-- Split a character list on a separator; like Python `str.split(sep)`,
the result always has one more group than there are separators. -/
def splitOnChar (sep : Char) : List Char → List (List Char)
  | [] => [[]]
  | c :: cs =>
    if c = sep then [] :: splitOnChar sep cs
    else
      match splitOnChar sep cs with
      | [] => [[c]]
      | g :: gs => (c :: g) :: gs

/-- Mantissa of a float literal: digits with at most one decimal point and
at least one digit overall (`"1."` and `".5"` are valid, `"."` is not). -/
def parseMantissa (cs : List Char) : Option ℚ :=
  match splitOnChar '.' cs with
  | [ip] => (digitsVal ip).map (fun n => (n : ℚ))
  | [ip, fp] =>
    if ip.isEmpty && fp.isEmpty then none
    else (digitsVal0 (ip ++ fp)).map (fun n => (n : ℚ) / 10 ^ fp.length)
  | _ => none

/-- Unsigned float literal: a mantissa with an optional `e`/`E` exponent
(the special spellings `inf` and `nan` are not modelled). -/
def parseUnsignedFloat (cs : List Char) : Option ℚ :=
  match splitOnChar 'e' (cs.map (fun c => if c = 'E' then 'e' else c)) with
  | [m] => parseMantissa m
  | [m, ex] =>
    match parseMantissa m, parseIntTok ex with
    | some q, some e => some (q * 10 ^ e)
    | _, _ => none
  | _ => none

/-- Model of Python `float(token)`: an optional sign followed by an
unsigned float literal. -/
def parseFloatTok (cs : List Char) : Option ℚ :=
  if cs.head? = some '-' then (parseUnsignedFloat cs.tail).map Neg.neg
  else if cs.head? = some '+' then parseUnsignedFloat cs.tail
  else parseUnsignedFloat cs

/-- Model of `yolo_load_label` (label_gui.py lines 92-108). The argument
is `none` when the label file does not exist, otherwise the file content.
The first line is stripped and split on whitespace; exactly five tokens —
an integer class id and four floats — are required, and any conversion
failure (the `except` branch) yields `none`. -/
def yolo_load_label (file : Option (List Char)) : Option (ℤ × ℚ × ℚ × ℚ × ℚ) :=
  match file with
  | none => none
  | some content =>
    match tokens (pyStrip (firstLine content)) with
    | [t0, t1, t2, t3, t4] =>
      match parseIntTok t0, parseFloatTok t1, parseFloatTok t2,
          parseFloatTok t3, parseFloatTok t4 with
      | some cid, some a, some b, some c, some d => some (cid, a, b, c, d)
      | _, _, _, _, _ => none
    | _ => none

theorem load_wrong_count (content : List Char)
    (h : (tokens (pyStrip (firstLine content))).length ≠ 5) :
    yolo_load_label (some content) = none := by
  simp only [yolo_load_label]
  rcases hts : tokens (pyStrip (firstLine content)) with
    _ | ⟨t0, _ | ⟨t1, _ | ⟨t2, _ | ⟨t3, _ | ⟨t4, _ | ⟨t5, rest⟩⟩⟩⟩⟩⟩ <;>
    first
      | rfl
      | (exfalso; rw [hts] at h; simp at h)

theorem load_parse_failure (content : List Char) (t0 t1 t2 t3 t4 : List Char)
    (hts : tokens (pyStrip (firstLine content)) = [t0, t1, t2, t3, t4])
    (hfail : parseIntTok t0 = none ∨ parseFloatTok t1 = none ∨ parseFloatTok t2 = none ∨
      parseFloatTok t3 = none ∨ parseFloatTok t4 = none) :
    yolo_load_label (some content) = none := by
  rcases h0 : parseIntTok t0 with _ | cid <;>
    rcases h1 : parseFloatTok t1 with _ | a <;>
    rcases h2 : parseFloatTok t2 with _ | b <;>
    rcases h3 : parseFloatTok t3 with _ | c <;>
    rcases h4 : parseFloatTok t4 with _ | d <;>
    simp only [yolo_load_label, hts, h0, h1, h2, h3, h4] <;>
    simp [h0, h1, h2, h3, h4] at hfail ⊢

theorem load_success (content : List Char) (t0 t1 t2 t3 t4 : List Char)
    (cid : ℤ) (a b c d : ℚ)
    (hts : tokens (pyStrip (firstLine content)) = [t0, t1, t2, t3, t4])
    (h0 : parseIntTok t0 = some cid) (h1 : parseFloatTok t1 = some a)
    (h2 : parseFloatTok t2 = some b) (h3 : parseFloatTok t3 = some c)
    (h4 : parseFloatTok t4 = some d) :
    yolo_load_label (some content) = some (cid, a, b, c, d) := by
  simp only [yolo_load_label, hts, h0, h1, h2, h3, h4]

/-- C6: `yolo_load_label` returns no record exactly when the label file
does not exist (`none` input) or its first line does not split into five
whitespace-separated tokens parsing as one integer and four floats; the
three failure conjuncts and the success conjunct cover every input, and on
success the parsed values are returned without any range validation — the
final conjunct shows values outside `[0,1]` returned as-is, and the
second-to-last shows the spec's wrong-token-count example `"1 0.5 0.5"`
treated as "no record". -/
theorem yolo_load_label_spec :
    (yolo_load_label none = none) ∧
    (∀ content, (tokens (pyStrip (firstLine content))).length ≠ 5 →
      yolo_load_label (some content) = none) ∧
    (∀ content t0 t1 t2 t3 t4,
      tokens (pyStrip (firstLine content)) = [t0, t1, t2, t3, t4] →
      (parseIntTok t0 = none ∨ parseFloatTok t1 = none ∨ parseFloatTok t2 = none ∨
        parseFloatTok t3 = none ∨ parseFloatTok t4 = none) →
      yolo_load_label (some content) = none) ∧
    (∀ content t0 t1 t2 t3 t4 cid a b c d,
      tokens (pyStrip (firstLine content)) = [t0, t1, t2, t3, t4] →
      parseIntTok t0 = some cid → parseFloatTok t1 = some a →
      parseFloatTok t2 = some b → parseFloatTok t3 = some c →
      parseFloatTok t4 = some d →
      yolo_load_label (some content) = some (cid, a, b, c, d)) ∧
    yolo_load_label (some (chars "1 0.5 0.5")) = none ∧
    yolo_load_label (some (chars "1 2.5 -0.5 0.5 3.5")) = some (1, 5 / 2, -(1 / 2), 1 / 2, 7 / 2) := by
  refine ⟨rfl, load_wrong_count, load_parse_failure, load_success, ?_, ?_⟩
  · have h : tokens (pyStrip (firstLine (chars "1 0.5 0.5")))
        = [chars "1", chars "0.5", chars "0.5"] := by decide
    simp [yolo_load_label, h]
  · have h : tokens (pyStrip (firstLine (chars "1 2.5 -0.5 0.5 3.5")))
        = [chars "1", chars "2.5", chars "-0.5", chars "0.5", chars "3.5"] := by decide
    rw [yolo_load_label, h]
    simp +decide [parseIntTok, parseFloatTok, parseUnsignedFloat, parseMantissa, splitOnChar,
      digitsVal, digitsVal0, chars]
    norm_num

/-- Witness for C6: a well-formed label line is parsed into its class id
and four coordinates. -/
theorem yolo_load_label_spec_witness :
    yolo_load_label (some (chars "7 0.1 0.2 0.3 0.4"))
      = some (7, 1 / 10, 1 / 5, 3 / 10, 2 / 5) := by
  refine yolo_load_label_spec.2.2.2.1 (chars "7 0.1 0.2 0.3 0.4")
    (chars "7") (chars "0.1") (chars "0.2") (chars "0.3") (chars "0.4")
    7 (1 / 10) (1 / 5) (3 / 10) (2 / 5) (by decide) (by decide) ?_ ?_ ?_ ?_ <;>
    (simp +decide [parseFloatTok, parseUnsignedFloat, parseMantissa, splitOnChar,
      digitsVal, digitsVal0, chars]; try norm_num)

/-- The decimal digit character for `n % 10`. -/
def digitChar (n : ℕ) : Char := Char.ofNat (48 + n % 10)

theorem digitChar_facts (n : ℕ) :
    (digitChar n).isDigit = true ∧ digitChar n ≠ '.' ∧ digitChar n ≠ ' ' ∧
      digitChar n ≠ '\n' ∧ digitChar n ≠ '-' := by
  have h : n % 10 = 0 ∨ n % 10 = 1 ∨ n % 10 = 2 ∨ n % 10 = 3 ∨ n % 10 = 4 ∨
      n % 10 = 5 ∨ n % 10 = 6 ∨ n % 10 = 7 ∨ n % 10 = 8 ∨ n % 10 = 9 := by omega
  unfold digitChar
  rcases h with h | h | h | h | h | h | h | h | h | h <;> rw [h] <;>
    exact ⟨by decide, by decide, by decide, by decide, by decide⟩

def natDigitsAux : ℕ → ℕ → List Char
  | 0, _ => []
  | fuel + 1, n =>
    if n < 10 then [digitChar n]
    else natDigitsAux fuel (n / 10) ++ [digitChar (n % 10)]

/-- Decimal digit characters of a natural number, most significant first,
as produced by Python `str` on a non-negative int (the fuel argument
`n + 1` always suffices since the number shrinks by a factor 10 each
step). -/
def natDigits (n : ℕ) : List Char := natDigitsAux (n + 1) n

theorem natDigitsAux_chars (fuel : ℕ) :
    ∀ n c, c ∈ natDigitsAux fuel n → ∃ m, c = digitChar m := by
  induction fuel with
  | zero => intro n c hc; simp [natDigitsAux] at hc
  | succ fuel ih =>
    intro n c hc
    rw [natDigitsAux] at hc
    split at hc
    · simp at hc
      exact ⟨n, hc⟩
    · rcases List.mem_append.mp hc with h | h
      · exact ih _ _ h
      · simp at h
        exact ⟨n % 10, h⟩

/-- Python `str` of an int: an optional minus sign and decimal digits. -/
def intToString (i : ℤ) : List Char :=
  if i < 0 then '-' :: natDigits (-i).toNat else natDigits i.toNat

/-- The six digits printed after the decimal point for a scaled value
`n < 10^6` (each entry reduces its argument modulo 10). -/
def frac6 (n : ℕ) : List Char :=
  [digitChar (n / 100000), digitChar (n / 10000), digitChar (n / 1000),
   digitChar (n / 100), digitChar (n / 10), digitChar n]

/-- Round to the nearest integer with ties to even, the rounding Python
applies when formatting with a fixed number of decimals. -/
def roundHalfEven (q : ℚ) : ℤ :=
  if q - ⌊q⌋ < 1 / 2 then ⌊q⌋
  else if 1 / 2 < q - ⌊q⌋ then ⌊q⌋ + 1
  else if ⌊q⌋ % 2 = 0 then ⌊q⌋ else ⌊q⌋ + 1

def fmt6abs (q : ℚ) : List Char :=
  natDigits ((roundHalfEven (q * 1000000)).toNat / 1000000) ++
    '.' :: frac6 ((roundHalfEven (q * 1000000)).toNat % 1000000)

/-- Model of the Python format specifier `:.6f`: the value rounded to six
decimal places and printed with exactly six digits after the point. -/
def fmt6 (q : ℚ) : List Char :=
  if q < 0 then '-' :: fmt6abs (-q) else fmt6abs q

theorem frac6_chars (n : ℕ) (c : Char) (hc : c ∈ frac6 n) : ∃ m, c = digitChar m := by
  simp [frac6] at hc
  rcases hc with h | h | h | h | h | h <;> exact ⟨_, h⟩

theorem natDigits_chars (n : ℕ) (c : Char) (hc : c ∈ natDigits n) : ∃ m, c = digitChar m :=
  natDigitsAux_chars _ _ _ hc

theorem intToString_chars (i : ℤ) (c : Char) (hc : c ∈ intToString i) :
    c = '-' ∨ ∃ m, c = digitChar m := by
  unfold intToString at hc
  split at hc
  · rcases List.mem_cons.mp hc with h | h
    · exact Or.inl h
    · exact Or.inr (natDigits_chars _ _ h)
  · exact Or.inr (natDigits_chars _ _ hc)

theorem intToString_field (i : ℤ) (c : Char) (hc : c ∈ intToString i) :
    c ≠ ' ' ∧ c ≠ '\n' := by
  rcases intToString_chars i c hc with h | ⟨m, h⟩
  · subst h; exact ⟨by decide, by decide⟩
  · subst h
    exact ⟨(digitChar_facts m).2.2.1, (digitChar_facts m).2.2.2.1⟩

theorem fmt6_field (q : ℚ) (c : Char) (hc : c ∈ fmt6 q) : c ≠ ' ' ∧ c ≠ '\n' := by
  unfold fmt6 fmt6abs at hc
  have base : ∀ (a b : ℕ) (d : Char), d ∈ natDigits a ++ '.' :: frac6 b →
      d ≠ ' ' ∧ d ≠ '\n' := by
    intro a b d hd
    rcases List.mem_append.mp hd with h | h
    · rcases natDigits_chars _ _ h with ⟨m, h⟩
      subst h
      exact ⟨(digitChar_facts m).2.2.1, (digitChar_facts m).2.2.2.1⟩
    · rcases List.mem_cons.mp h with h | h
      · subst h; exact ⟨by decide, by decide⟩
      · rcases frac6_chars _ _ h with ⟨m, h⟩
        subst h
        exact ⟨(digitChar_facts m).2.2.1, (digitChar_facts m).2.2.2.1⟩
  split at hc
  · rcases List.mem_cons.mp hc with h | h
    · subst h; exact ⟨by decide, by decide⟩
    · exact base _ _ _ h
  · exact base _ _ _ hc

/-- A field of the form `digits.dddddd`: exactly six digit characters
after a single decimal point (with an optional sign in front). -/
def sixDecimals (s : List Char) : Prop :=
  ∃ ip fp, s = ip ++ '.' :: fp ∧ fp.length = 6 ∧ (∀ c ∈ fp, c.isDigit = true) ∧
    (∀ c ∈ ip, c ≠ '.')

theorem fmt6_sixDecimals (q : ℚ) : sixDecimals (fmt6 q) := by
  unfold fmt6 fmt6abs
  have hfp : ∀ n, (∀ c ∈ frac6 n, c.isDigit = true) := by
    intro n c hc
    rcases frac6_chars _ _ hc with ⟨m, h⟩
    subst h
    exact (digitChar_facts m).1
  have hip : ∀ n, ∀ c ∈ natDigits n, c ≠ '.' := by
    intro n c hc
    rcases natDigits_chars _ _ hc with ⟨m, h⟩
    subst h
    exact (digitChar_facts m).2.1
  split
  · refine ⟨'-' :: natDigits ((roundHalfEven (-q * 1000000)).toNat / 1000000),
      frac6 ((roundHalfEven (-q * 1000000)).toNat % 1000000), by simp, rfl, hfp _, ?_⟩
    intro c hc
    rcases List.mem_cons.mp hc with h | h
    · subst h; decide
    · exact hip _ _ h
  · exact ⟨natDigits ((roundHalfEven (q * 1000000)).toNat / 1000000),
      frac6 ((roundHalfEven (q * 1000000)).toNat % 1000000), rfl, rfl, hfp _, hip _⟩

theorem count_nl_zero (s : List Char) (h : ∀ c ∈ s, c ≠ '\n') : s.count '\n' = 0 :=
  List.count_eq_zero.mpr (fun hmem => (h _ hmem) rfl)

/-- The single line written by `yolo_save_label` (label_gui.py line 89):
the f-string `"{class_id} {cx:.6f} {cy:.6f} {w:.6f} {h:.6f}\n"` applied to
the record produced by the normalization arithmetic. -/
def yolo_save_line (class_id : ℤ) (r : RectQ) (W H : ℚ) : List Char :=
  intToString class_id ++ ' ' :: fmt6 (normalizeRect r W H).cx ++
    ' ' :: fmt6 (normalizeRect r W H).cy ++ ' ' :: fmt6 (normalizeRect r W H).w ++
    ' ' :: fmt6 (normalizeRect r W H).h ++ ['\n']

/-- File-system effect of `yolo_save_label` (label_gui.py lines 87-89):
`open(label_path, "w")` truncates the file, so the content after the write
is the new line alone, whatever the previous content (`prev`) was. -/
def yolo_save_file (prev : Option (List Char)) (class_id : ℤ) (r : RectQ) (W H : ℚ) :
    Option (List Char) :=
  some (yolo_save_line class_id r W H)

/-- C7: every save writes the label file as exactly one newline-terminated
line of five space-separated fields — the class id and the four record
values, each formatted to exactly six decimal places — and the resulting
file content does not depend on the previous file content (a truncating
write: no append, no history). -/
theorem yolo_save_format (prev prev' : Option (List Char)) (cid : ℤ) (r : RectQ) (W H : ℚ) :
    yolo_save_file prev cid r W H = some (yolo_save_line cid r W H) ∧
    yolo_save_file prev cid r W H = yolo_save_file prev' cid r W H ∧
    yolo_save_line cid r W H =
      intToString cid ++ ' ' :: fmt6 (normalizeRect r W H).cx ++
        ' ' :: fmt6 (normalizeRect r W H).cy ++ ' ' :: fmt6 (normalizeRect r W H).w ++
        ' ' :: fmt6 (normalizeRect r W H).h ++ ['\n'] ∧
    (∃ s, yolo_save_line cid r W H = s ++ ['\n'] ∧ '\n' ∉ s) ∧
    (yolo_save_line cid r W H).count '\n' = 1 ∧
    (∀ c ∈ intToString cid, c ≠ ' ' ∧ c ≠ '\n') ∧
    sixDecimals (fmt6 (normalizeRect r W H).cx) ∧
    sixDecimals (fmt6 (normalizeRect r W H).cy) ∧
    sixDecimals (fmt6 (normalizeRect r W H).w) ∧
    sixDecimals (fmt6 (normalizeRect r W H).h) ∧
    (∀ c ∈ fmt6 (normalizeRect r W H).cx, c ≠ ' ' ∧ c ≠ '\n') ∧
    (∀ c ∈ fmt6 (normalizeRect r W H).cy, c ≠ ' ' ∧ c ≠ '\n') ∧
    (∀ c ∈ fmt6 (normalizeRect r W H).w, c ≠ ' ' ∧ c ≠ '\n') ∧
    (∀ c ∈ fmt6 (normalizeRect r W H).h, c ≠ ' ' ∧ c ≠ '\n') := by
  have hmemapp : ∀ {P : Char → Prop} {a b : List Char},
      (∀ c ∈ a, P c) → (∀ c ∈ b, P c) → ∀ c ∈ a ++ b, P c := by
    intro P a b ha hb c hc
    rcases List.mem_append.mp hc with h | h
    · exact ha c h
    · exact hb c h
  have hmemcons : ∀ {P : Char → Prop} {x : Char} {b : List Char},
      P x → (∀ c ∈ b, P c) → ∀ c ∈ x :: b, P c := by
    intro P x b hx hb c hc
    rcases List.mem_cons.mp hc with h | h
    · exact h ▸ hx
    · exact hb c h
  have hfmt : ∀ q : ℚ, ∀ c ∈ fmt6 q, c ≠ '\n' := fun q c h => (fmt6_field q c h).2
  have hs : ∀ c ∈ intToString cid ++ ' ' :: fmt6 (normalizeRect r W H).cx ++
      ' ' :: fmt6 (normalizeRect r W H).cy ++ ' ' :: fmt6 (normalizeRect r W H).w ++
      ' ' :: fmt6 (normalizeRect r W H).h, c ≠ '\n' :=
    hmemapp
      (hmemapp
        (hmemapp
          (hmemapp (fun c h => (intToString_field cid c h).2)
            (hmemcons (by decide) (hfmt _)))
          (hmemcons (by decide) (hfmt _)))
        (hmemcons (by decide) (hfmt _)))
      (hmemcons (by decide) (hfmt _))
  have hline : yolo_save_line cid r W H =
      (intToString cid ++ ' ' :: fmt6 (normalizeRect r W H).cx ++
        ' ' :: fmt6 (normalizeRect r W H).cy ++ ' ' :: fmt6 (normalizeRect r W H).w ++
        ' ' :: fmt6 (normalizeRect r W H).h) ++ ['\n'] := by
    simp [yolo_save_line, List.append_assoc]
  refine ⟨rfl, rfl, rfl, ⟨_, hline, fun hmem => (hs _ hmem) rfl⟩, ?_,
    intToString_field cid, fmt6_sixDecimals _, fmt6_sixDecimals _, fmt6_sixDecimals _,
    fmt6_sixDecimals _, fmt6_field _, fmt6_field _, fmt6_field _, fmt6_field _⟩
  rw [hline, List.count_append, count_nl_zero _ hs]
  rfl

/-- The glob patterns of `list_images` (label_gui.py line 49), in code
order; a file name matches a pattern when it ends with the extension. -/
def image_exts : List (List Char) := [chars ".jpg", chars ".jpeg", chars ".png", chars ".bmp"]

/-- Model of `sorted(images_dir.glob(ext))` for one pattern: the directory
entries matching the extension, sorted (paths in one directory compare by
their name strings, i.e. lexicographically by code point). -/
def globSorted (dir : List (List Char)) (ext : List Char) : List (List Char) :=
  List.insertionSort (· ≤ ·) (dir.filter (fun f => ext.isSuffixOf f))

/-- Model of `list_images` (label_gui.py lines 48-53): starting from the
empty list, extend with the sorted matches of each extension in turn. -/
def list_images (dir : List (List Char)) : List (List Char) :=
  image_exts.foldl (fun files ext => files ++ globSorted dir ext) []

/-- C8 counterexample: the code sorts per extension pattern and then
concatenates the groups, so the whole navigation sequence is not in sorted
path order: a directory holding `a.png` and `b.jpg` yields the sequence
`[b.jpg, a.png]`, which is not sorted. -/
theorem list_images_counterexample :
    list_images [chars "a.png", chars "b.jpg"] = [chars "b.jpg", chars "a.png"] ∧
    ¬ List.Sorted (· ≤ ·) (list_images [chars "a.png", chars "b.jpg"]) := by
  constructor
  · decide
  · intro h
    rw [show list_images [chars "a.png", chars "b.jpg"]
        = [chars "b.jpg", chars "a.png"] from by decide] at h
    exact absurd (List.rel_of_sorted_cons h (chars "a.png") (by simp)) (by decide)

/-- C8 (amended): the navigation sequence consists of all directory
entries matching one of the four extensions jpg, jpeg, png, bmp, but it is
sorted only within each extension group: it is the concatenation, in the
fixed pattern order, of the per-extension sorted lists, not one list in
sorted path order over the whole sequence. -/
theorem list_images_grouped_sorted (dir : List (List Char)) :
    list_images dir =
      globSorted dir (chars ".jpg") ++ globSorted dir (chars ".jpeg") ++
        globSorted dir (chars ".png") ++ globSorted dir (chars ".bmp") ∧
    (∀ ext, List.Sorted (· ≤ ·) (globSorted dir ext)) ∧
    (∀ f, f ∈ list_images dir ↔
      f ∈ dir ∧ ((chars ".jpg").isSuffixOf f ∨ (chars ".jpeg").isSuffixOf f ∨
        (chars ".png").isSuffixOf f ∨ (chars ".bmp").isSuffixOf f)) := by
  refine ⟨by simp [list_images, image_exts], fun ext => List.sorted_insertionSort _ _,
    fun f => ?_⟩
  simp [list_images, image_exts, globSorted, List.mem_insertionSort, List.mem_filter]
  tauto

/-- Navigation state of `LabelGUI`: the current image index `self.idx`, a
Python int; the image list length `n` is fixed after startup. -/
structure NavState where
  idx : ℤ
deriving DecidableEq

/-- Model of the index clamp at the top of `LabelGUI.load_image`
(label_gui.py line 228): `idx = max(0, min(idx, len(self.images) - 1))`. -/
def load_image (n i : ℤ) : NavState := ⟨max 0 (min i (n - 1))⟩

/-- Model of `LabelGUI.prev_image` (label_gui.py lines 320-322). -/
def prev_image (n : ℤ) (s : NavState) : NavState :=
  if 0 < s.idx then load_image n (s.idx - 1) else s

/-- Model of `LabelGUI.next_image` (label_gui.py lines 324-326). -/
def next_image (n : ℤ) (s : NavState) : NavState :=
  if s.idx < n - 1 then load_image n (s.idx + 1) else s

/-- Navigation effect of `LabelGUI.save_label` (label_gui.py lines
328-362): with a class selected and a box drawn the handler saves and
auto-advances unless already at the last image; otherwise it warns and
returns without navigating. -/
def save_label_nav (n : ℤ) (hasClass hasBox : Bool) (s : NavState) : NavState :=
  if hasClass && hasBox then
    (if s.idx < n - 1 then load_image n (s.idx + 1) else s)
  else s

/-- The user operations that can change the current image index. -/
inductive NavOp where
  | prev : NavOp
  | next : NavOp
  | save : Bool → Bool → NavOp
  | load : ℤ → NavOp
deriving DecidableEq

def navStep (n : ℤ) (s : NavState) : NavOp → NavState
  | NavOp.prev => prev_image n s
  | NavOp.next => next_image n s
  | NavOp.save hc hb => save_label_nav n hc hb s
  | NavOp.load i => load_image n i

/-- Run a sequence of navigation operations from the startup state
(`self.idx = 0` followed by `load_image(0)` in `__init__`). -/
def navRun (n : ℤ) (ops : List NavOp) : NavState :=
  ops.foldl (navStep n) (load_image n 0)

theorem load_image_bounds (n i : ℤ) (hn : 1 ≤ n) :
    0 ≤ (load_image n i).idx ∧ (load_image n i).idx ≤ n - 1 :=
  ⟨le_max_left 0 _, max_le (by linarith) (min_le_right _ _)⟩

theorem navStep_bounds (n : ℤ) (hn : 1 ≤ n) (s : NavState)
    (h : 0 ≤ s.idx ∧ s.idx ≤ n - 1) (op : NavOp) :
    0 ≤ (navStep n s op).idx ∧ (navStep n s op).idx ≤ n - 1 := by
  cases op with
  | prev =>
    simp only [navStep]
    unfold prev_image
    split
    · exact load_image_bounds n _ hn
    · exact h
  | next =>
    simp only [navStep]
    unfold next_image
    split
    · exact load_image_bounds n _ hn
    · exact h
  | save hc hb =>
    simp only [navStep]
    unfold save_label_nav
    split
    · split
      · exact load_image_bounds n _ hn
      · exact h
    · exact h
  | load i =>
    exact load_image_bounds n i hn

theorem navFold_bounds (n : ℤ) (hn : 1 ≤ n) :
    ∀ (ops : List NavOp) (s : NavState), 0 ≤ s.idx ∧ s.idx ≤ n - 1 →
      0 ≤ (ops.foldl (navStep n) s).idx ∧ (ops.foldl (navStep n) s).idx ≤ n - 1 := by
  intro ops
  induction ops with
  | nil => intro s h; exact h
  | cons op ops ih =>
    intro s h
    exact ih _ (navStep_bounds n hn s h op)

/-- C9: starting from index 0, after any sequence of prev/next/save/load
operations over a non-empty image list the current index stays within
`[0, n-1]` — navigation is bounded at both ends with no wraparound — and a
successful save (class and box both present) advances the index by exactly
one unless it is already at the last image, in which case it is
unchanged. -/
theorem navigation_bounded (n : ℤ) (hn : 1 ≤ n) (ops : List NavOp) :
    (0 ≤ (navRun n ops).idx ∧ (navRun n ops).idx ≤ n - 1) ∧
    (∀ s : NavState, 0 ≤ s.idx → s.idx ≤ n - 1 →
      (save_label_nav n true true s).idx =
        (if s.idx < n - 1 then s.idx + 1 else s.idx)) := by
  constructor
  · exact navFold_bounds n hn ops _ (load_image_bounds n 0 hn)
  · intro s h0 h1
    unfold save_label_nav
    rw [if_pos (show ((true && true) = true) from rfl)]
    rcases lt_or_le s.idx (n - 1) with hlt | hge
    · rw [if_pos hlt, if_pos hlt]
      unfold load_image
      dsimp only
      rw [min_eq_left (by omega), max_eq_right (by omega)]
    · rw [if_neg (by omega), if_neg (by omega)]

/-- Witness for C9 with three images and the operation sequence: next,
successful save (advances to the last image), save at the last image (no
move), prev, load 7 (clamped). -/
theorem navigation_bounded_witness :
    (1 : ℤ) ≤ 3 ∧
    ((0 ≤ (navRun 3 [NavOp.next, NavOp.save true true, NavOp.save true true,
        NavOp.prev, NavOp.load 7]).idx ∧
      (navRun 3 [NavOp.next, NavOp.save true true, NavOp.save true true,
        NavOp.prev, NavOp.load 7]).idx ≤ 3 - 1) ∧
     (∀ s : NavState, 0 ≤ s.idx → s.idx ≤ 3 - 1 →
       (save_label_nav 3 true true s).idx =
         (if s.idx < 3 - 1 then s.idx + 1 else s.idx))) :=
  ⟨by norm_num,
   navigation_bounded 3 (by norm_num)
     [NavOp.next, NavOp.save true true, NavOp.save true true, NavOp.prev, NavOp.load 7]⟩

/-- Class-selection state of `LabelGUI`: the per-class checkbox variables
`self.class_vars` (modelled as a predicate on checkbox indices; only
indices below the number of classes `k` correspond to real checkboxes) and
`self.selected_class_id`. -/
structure ClassState where
  vars : ℕ → Bool
  selected : Option ℤ

/-- The startup state from `LabelGUI.__init__` (label_gui.py lines
134-136): no class selected, every checkbox variable 0. -/
def initClassState : ClassState := ⟨fun _ => false, none⟩

/-- Model of `LabelGUI.on_class_toggle i` (label_gui.py lines 209-219) for
a GUI with `k` checkboxes, run after Tk has already updated variable `i`:
if checkbox `i` is now on, every other variable (index below `k`, `j ≠ i`)
is turned off and `i` becomes the selected class; if it is now off, the
selection is cleared and the other variables are left untouched. -/
def on_class_toggle (k : ℕ) (s : ClassState) (i : ℕ) : ClassState :=
  if s.vars i then
    { vars := fun j => if j = i then s.vars j else if j < k then false else s.vars j
      selected := some (i : ℤ) }
  else
    { vars := s.vars, selected := none }

/-- Model of `LabelGUI.set_selected_class` (label_gui.py lines 221-224):
each of the `k` checkbox variables is set to 1 exactly when its index
equals the given class id, and the selection becomes the given id —
whatever it is, including an out-of-range id read from a label file by
`load_image`. -/
def set_selected_class (k : ℕ) (s : ClassState) (cid : Option ℤ) : ClassState :=
  { vars := fun j => if j < k then
      (match cid with
        | some c => ((j : ℤ) == c)
        | none => false)
      else s.vars j
    selected := cid }

/-- A user click on checkbox `i`: Tk toggles the variable, then the
`on_class_toggle` callback runs. -/
def clickToggle (k : ℕ) (s : ClassState) (i : ℕ) : ClassState :=
  on_class_toggle k
    { vars := fun j => if j = i then !s.vars j else s.vars j, selected := s.selected } i

/-- The claimed invariant: checkbox variables are off outside the class
list, at most one is on, and the selected class id is absent or is the
index of the single active checkbox — in particular a valid non-negative
index into the class-name list. -/
def ClassInv (k : ℕ) (s : ClassState) : Prop :=
  (∀ j, k ≤ j → s.vars j = false) ∧
  (∀ i j, s.vars i = true → s.vars j = true → i = j) ∧
  (∀ c, s.selected = some c →
    0 ≤ c ∧ c < (k : ℤ) ∧ s.vars c.toNat = true ∧
      ∀ j, s.vars j = true → (j : ℤ) = c)

theorem initClassState_inv (k : ℕ) : ClassInv k initClassState := by
  refine ⟨fun j _ => rfl, fun i j hi _ => by simp [initClassState] at hi, fun c hc => ?_⟩
  simp [initClassState] at hc

theorem on_class_toggle_inv (k : ℕ) (u : ClassState) (i : ℕ) (hi : i < k)
    (hhigh : ∀ j, k ≤ j → u.vars j = false)
    (hone : u.vars i = false → ∀ a b, u.vars a = true → u.vars b = true → a = b) :
    ClassInv k (on_class_toggle k u i) := by
  unfold on_class_toggle
  by_cases hv : u.vars i
  · rw [if_pos hv]
    refine ⟨?_, ?_, ?_⟩
    · intro j hj
      dsimp only
      rw [if_neg (by omega), if_neg (by omega)]
      exact hhigh j hj
    · intro a b ha hb
      dsimp only at ha hb
      by_cases hai : a = i
      · by_cases hbi : b = i
        · rw [hai, hbi]
        · exfalso
          rw [if_neg hbi] at hb
          by_cases hbk : b < k
          · rw [if_pos hbk] at hb
            exact absurd hb (by simp)
          · rw [if_neg hbk] at hb
            rw [hhigh b (by omega)] at hb
            exact absurd hb (by simp)
      · exfalso
        rw [if_neg hai] at ha
        by_cases hak : a < k
        · rw [if_pos hak] at ha
          exact absurd ha (by simp)
        · rw [if_neg hak] at ha
          rw [hhigh a (by omega)] at ha
          exact absurd ha (by simp)
    · intro c hc
      dsimp only at hc
      simp only [Option.some.injEq] at hc
      subst hc
      refine ⟨by positivity, by exact_mod_cast hi, ?_, ?_⟩
      · dsimp only
        rw [Int.toNat_natCast, if_pos rfl]
        exact hv
      · intro j hj
        dsimp only at hj
        by_cases hji : j = i
        · rw [hji]
        · exfalso
          rw [if_neg hji] at hj
          by_cases hjk : j < k
          · rw [if_pos hjk] at hj
            exact absurd hj (by simp)
          · rw [if_neg hjk] at hj
            rw [hhigh j (by omega)] at hj
            exact absurd hj (by simp)
  · rw [if_neg hv]
    refine ⟨hhigh, hone (Bool.not_eq_true _ ▸ eq_false_of_ne_true hv), ?_⟩
    intro c hc
    simp at hc

theorem clickToggle_inv (k : ℕ) (s : ClassState) (i : ℕ)
    (hi : i < k) (hs : ClassInv k s) :
    ClassInv k (clickToggle k s i) := by
  obtain ⟨hhigh, hone, _⟩ := hs
  unfold clickToggle
  apply on_class_toggle_inv k _ i hi
  · intro j hj
    dsimp only
    rw [if_neg (by omega)]
    exact hhigh j hj
  · intro hti a b ha hb
    dsimp only at hti ha hb
    rw [if_pos rfl] at hti
    by_cases hai : a = i
    · exfalso
      rw [if_pos hai] at ha
      rw [hai] at ha
      rw [ha] at hti
      exact absurd hti (by simp)
    · by_cases hbi : b = i
      · exfalso
        rw [if_pos hbi] at hb
        rw [hbi] at hb
        rw [hb] at hti
        exact absurd hti (by simp)
      · rw [if_neg hai] at ha
        rw [if_neg hbi] at hb
        exact hone a b ha hb

theorem set_selected_class_inv (k : ℕ) (s : ClassState) (cid : Option ℤ)
    (hhigh : ∀ j, k ≤ j → s.vars j = false)
    (hcid : cid = none ∨ ∃ c, cid = some c ∧ 0 ≤ c ∧ c < (k : ℤ)) :
    ClassInv k (set_selected_class k s cid) := by
  rcases hcid with hnone | ⟨c, hc, hc0, hck⟩
  · subst hnone
    refine ⟨?_, ?_, ?_⟩
    · intro j hj
      simp only [set_selected_class]
      rw [if_neg (by omega)]
      exact hhigh j hj
    · intro a b ha hb
      simp only [set_selected_class] at ha
      split at ha
      · exact absurd ha (by simp)
      · exact absurd ha (by simp [hhigh a (by omega)])
    · intro c hc
      simp [set_selected_class] at hc
  · subst hc
    refine ⟨?_, ?_, ?_⟩
    · intro j hj
      simp only [set_selected_class]
      rw [if_neg (by omega)]
      exact hhigh j hj
    · intro a b ha hb
      simp only [set_selected_class] at ha hb
      split at ha
      · split at hb
        · have ha' : (a : ℤ) = c := by simpa using ha
          have hb' : (b : ℤ) = c := by simpa using hb
          exact_mod_cast ha'.trans hb'.symm
        · exact absurd hb (by simp [hhigh b (by omega)])
      · exact absurd ha (by simp [hhigh a (by omega)])
    · intro c' hc'
      simp only [set_selected_class, Option.some.injEq] at hc'
      subst hc'
      refine ⟨hc0, hck, ?_, ?_⟩
      · simp only [set_selected_class]
        rw [if_pos (by omega)]
        simp [Int.toNat_of_nonneg hc0]
      · intro j hj
        simp only [set_selected_class] at hj
        split at hj
        · simpa using hj
        · exact absurd hj (by simp [hhigh j (by omega)])

/-- C10 counterexample: `load_image` passes the class id parsed from a
label file to `set_selected_class` without validation; with 2 classes, the
id 7 leaves `selected_class_id = some 7` while every checkbox variable is
off, so the selection is neither `none` nor the index of an active toggle
and is not a valid index into the class-name list — the claimed invariant
fails after this class-selection operation. -/
theorem class_selection_counterexample :
    (set_selected_class 2 initClassState (some 7)).selected = some 7 ∧
    (∀ j, (set_selected_class 2 initClassState (some 7)).vars j = false) ∧
    ¬ ClassInv 2 (set_selected_class 2 initClassState (some 7)) := by
  refine ⟨rfl, ?_, ?_⟩
  · intro j
    by_cases hj : j < 2
    · interval_cases j <;> decide
    · simp only [set_selected_class, initClassState]
      rw [if_neg hj]
  · intro h
    have hbad := h.2.2 7 rfl
    norm_num at hbad

/-- C10 (amended): the startup state satisfies the exclusivity invariant
— at most one checkbox active, `selected_class_id` absent or equal to the
index of the single active checkbox and a valid index below the number of
classes `k` — and the invariant is preserved by every checkbox click
(`on_class_toggle` after the Tk toggle) and by `set_selected_class`
whenever its argument is `none` or an id in `[0, k)`; it is *not*
preserved by `set_selected_class` with an out-of-range id, as can be
loaded from a label file (see the counterexample). -/
theorem class_selection_exclusive (k : ℕ) (s : ClassState) (i : ℕ) (cid : Option ℤ)
    (hi : i < k) (hs : ClassInv k s)
    (hcid : cid = none ∨ ∃ c, cid = some c ∧ 0 ≤ c ∧ c < (k : ℤ)) :
    ClassInv k initClassState ∧
    ClassInv k (clickToggle k s i) ∧
    ClassInv k (set_selected_class k s cid) :=
  ⟨initClassState_inv k, clickToggle_inv k s i hi hs,
    set_selected_class_inv k s cid hs.1 hcid⟩

/-- Witness for C10 (amended): two classes, a click on checkbox 1 from the
startup state, and a selection of class 0. -/
theorem class_selection_exclusive_witness :
    1 < 2 ∧ ClassInv 2 initClassState ∧
    (some (0 : ℤ) = none ∨ ∃ c, some (0 : ℤ) = some c ∧ 0 ≤ c ∧ c < (2 : ℤ)) ∧
    (ClassInv 2 initClassState ∧ ClassInv 2 (clickToggle 2 initClassState 1) ∧
      ClassInv 2 (set_selected_class 2 initClassState (some 0))) :=
  ⟨by norm_num, initClassState_inv 2, Or.inr ⟨0, rfl, by norm_num, by norm_num⟩,
   class_selection_exclusive 2 initClassState 1 (some 0) (by norm_num)
     (initClassState_inv 2) (Or.inr ⟨0, rfl, by norm_num, by norm_num⟩)⟩
